import Mathlib

/-!
Verification of the gamevote ballot session engine (src/src/main.rs).

Embedding conventions:
* Rust `f32` scores are modelled as `ℚ`.
* Rust `HashMap<usize, _>` is modelled as an association list with unique
  keys (`List (Nat × _)`); `mapGet`/`mapInsert`/`mapContains` mirror
  `HashMap::get`, `HashMap::insert` (update-in-place, append when absent)
  and `HashMap::contains_key`.
* `UserId` keys are modelled as `Nat`.
* The four `VoteType` constants (bit-flag newtype in the source, of which
  exactly the four values `VOTE_APPROVAL`, `VOTE_SCORE`, `VOTE_LSCORE`,
  `VOTE_BORDA` are ever constructed; every other value panics) are
  modelled as a closed inductive with four constructors; the source's
  panic arms on mismatched ballot backing are modelled as `false`/`none`
  defaults that are unreachable for tag-matching ballots.
-/

namespace GameVote

/-- `HashMap::get` on an association list: first entry with the key. -/
def mapGet {α : Type} : List (Nat × α) → Nat → Option α
  | [], _ => none
  | p :: rest, k => if p.1 = k then some p.2 else mapGet rest k

/-- `HashMap::insert` on an association list: replace the entry for the key
in place, or append a new entry when the key is absent. -/
def mapInsert {α : Type} : List (Nat × α) → Nat → α → List (Nat × α)
  | [], k, v => [(k, v)]
  | p :: rest, k, v => if p.1 = k then (k, v) :: rest else p :: mapInsert rest k v

/-- `HashMap::contains_key`. -/
def mapContains {α : Type} (m : List (Nat × α)) (k : Nat) : Bool :=
  (mapGet m k).isSome

/-- `PERPAGE` (src line 68): choices shown per page of the private view. -/
def PERPAGE : Nat := 4

/-- The four `VoteType` constants (src lines 70-75). -/
inductive VoteType where
  | approval
  | score
  | lscore
  | borda
deriving DecidableEq

/-- `CastVotes` (src lines 180-184): one participant's ballot. -/
inductive CastVotes where
  | Select : List Nat → CastVotes
  | Score : List (Nat × ℚ) → CastVotes
  | Rank : List (Nat × Nat) → CastVotes
deriving DecidableEq

/-- The `sum(abs(scores))` accumulation in `CastVotes::are_valid`
(src lines 243-248). -/
def abssum (m : List (Nat × ℚ)) : ℚ :=
  m.foldl (fun acc p => acc + |p.2|) 0

/-- `CastVotes::are_valid` (src lines 237-276). `10.0001f32` is modelled as
the rational 100001/10000. The source panics when the ballot backing does
not match the vote type; those arms are modelled as `false` and are
unreachable for tag-matching ballots. -/
def are_valid (cv : CastVotes) (vt : VoteType) (size : Nat) : Bool :=
  match vt with
  | .approval => true
  | .score => true
  | .lscore =>
    match cv with
    | .Score hm => decide (abssum hm < (100001 : ℚ) / 10000)
    | _ => false
  | .borda =>
    match cv with
    | .Rank m =>
      (List.range size).all (fun i =>
        match mapGet m i with
        | some v => decide (1 ≤ v)
        | none => false)
    | _ => false

/-- The default-fill loop shared by the `Score` and `Rank` arms of
`CastVotes::get_ballot` (src lines 286-291 and 296-301): for each
`i in 0..size`, insert the default when the key is absent. -/
def fillMap {α : Type} (m : List (Nat × α)) (size : Nat) (dflt : α) :
    List (Nat × α) :=
  (List.range size).foldl
    (fun acc i => if mapContains acc i then acc else mapInsert acc i dflt) m

/-- `CastVotes::get_ballot` (src lines 278-305): the finalize step, filling
defaults (0.0 for scores, `size - 1` for ranks) so the ballot is dense over
`0..size`; a `Select` ballot is copied unchanged. -/
def get_ballot (cv : CastVotes) (size : Nat) : CastVotes :=
  match cv with
  | .Select v => .Select v
  | .Score m => .Score (fillMap m size 0)
  | .Rank m => .Rank (fillMap m size (size - 1))

/-- `VoteType::is_bad_value` (src lines 110-117). `v.fract() != 0.0` on a
rational is `v.den ≠ 1`. -/
def is_bad_value (vt : VoteType) (v : ℚ) (nvals : Nat) : Bool :=
  match vt with
  | .approval => false
  | .score => decide (v < -10 ∨ 10 < v)
  | .lscore => decide (v < -10 ∨ 10 < v)
  | .borda => decide (v.den ≠ 1 ∨ v ≤ 0 ∨ (nvals : ℚ) < v)

/-- The `CastVotes::Select` arm of the `ToggleChoice` handler
(src lines 775-781): remove the index when present (`retain`), append it
when absent (`push`). -/
def toggle_selection (v : List Nat) (num : Nat) : List Nat :=
  if num ∈ v then v.filter (fun x => x != num) else v ++ [num]

/-- The rank update rule of the `CastVotes::Rank` arm of the `ToggleChoice`
handler (src lines 793-801): `rank + 1`, wrapping to 1 when it exceeds
`nvals`. -/
def rankStep (nvals r : Nat) : Nat :=
  if r + 1 > nvals then 1 else r + 1

/-- The `CastVotes::Rank` arm of the `ToggleChoice` handler
(src lines 791-804): read the current rank (defaulting to `nvals` when the
index has no entry), increment with wraparound, and store it. -/
def increment_rank (m : List (Nat × Nat)) (num nvals : Nat) :
    List (Nat × Nat) :=
  let rank := (mapGet m num).getD nvals
  mapInsert m num (rankStep nvals rank)

/-- `num_pages` (src line 536): `((vals.len() - 1) / PERPAGE) + 1`. -/
def num_pages (n : Nat) : Nat :=
  (n - 1) / PERPAGE + 1

/-- The LEFT/RIGHT navigation handler (src lines 644-666). `dir = true`
is LEFT (`lr == ID_VOTE_LEFT`): decrement wrapping to `np - 1` at 0;
`dir = false` is RIGHT: increment wrapping to 0 at `np`. -/
def nav_page (dir : Bool) (page np : Nat) : Nat :=
  if !dir then
    if page + 1 ≥ np then 0 else page + 1
  else
    if page = 0 then np - 1 else page - 1

/-- The modal `ValueEntered` handler for a `Score` ballot
(src lines 852-894): `parsed` is the result of `it.value.parse::<f32>()`;
on parse failure or a bad value, 0.0 is stored and the error flag is set,
otherwise the parsed value is stored. Returns the updated score map and
the `badvalue` flag. -/
def value_entered (vt : VoteType) (nvals num : Nat) (parsed : Option ℚ)
    (m : List (Nat × ℚ)) : List (Nat × ℚ) × Bool :=
  match parsed with
  | none => (mapInsert m num 0, true)
  | some s =>
    if is_bad_value vt s nvals then (mapInsert m num 0, true)
    else (mapInsert m num s, false)

/-- The ballot-relevant part of `Vote` (src lines 314-318): per-user
in-progress ballots and the submitted finalized ballots. -/
structure VoteSt where
  uservotes : List (Nat × CastVotes)
  submitted : List (Nat × CastVotes)
deriving DecidableEq

/-- The `dosubmit` block of the `ID_VOTE_SUBMIT` handler
(src lines 694-731): validate the user's current ballot; on success,
finalize it with `get_ballot`, insert it into `submitted`, and report the
new voter count (`submittedvotes.len()` after the insert) when this is the
user's first accepted submission; on failure, leave the state untouched.
Returns `(new state, valid_submission, reported count)`; `none` models the
source's panic when the uid has no `uservotes` entry. -/
def record_submission (vt : VoteType) (nvals uid : Nat) (st : VoteSt) :
    Option (VoteSt × Bool × Option Nat) :=
  match mapGet st.uservotes uid with
  | none => none
  | some votes =>
    if are_valid votes vt nvals then
      let ballot := get_ballot votes nvals
      let already := mapContains st.submitted uid
      let submitted' := mapInsert st.submitted uid ballot
      some ({ st with submitted := submitted' },
            true,
            if already then none else some submitted'.length)
    else
      some (st, false, none)

/-- The observable outcome of one `ID_VOTE_SUBMIT` interaction:
`validated = some b` when `are_valid` ran with result `b`, `none` when the
vote-once short circuit skipped it; `count_update` is the voter count shown
on the public message, when updated; `results_from` is the snapshot of
`submitted` the tally results were computed from, when results were shown. -/
structure SubmitOutcome where
  validated : Option Bool
  count_update : Option Nat
  results_from : Option (List (Nat × CastVotes))
deriving DecidableEq

/-- The full `ID_VOTE_SUBMIT` handler (src lines 674-754): when
`vote_once` holds and the uid is already in `submitted`, skip submission
and show freshly computed results; otherwise run `record_submission`, and
on acceptance show results (updating the public count when first),
on rejection annotate the private view (no results, no count). -/
def submit_action (vote_once : Bool) (vt : VoteType) (nvals uid : Nat)
    (st : VoteSt) : Option (VoteSt × SubmitOutcome) :=
  let isfirst := vote_once && !(mapContains st.submitted uid)
  let dosubmit := !vote_once || isfirst
  if dosubmit then
    match record_submission vt nvals uid st with
    | none => none
    | some (st', valid, cnt) =>
      if valid then
        some (st', { validated := some true, count_update := cnt,
                     results_from := some st'.submitted })
      else
        some (st', { validated := some false, count_update := none,
                     results_from := none })
  else
    some (st, { validated := none, count_update := none,
                results_from := some st.submitted })

/-! ### Association-list map lemmas -/

theorem mapGet_insert_self {α : Type} (m : List (Nat × α)) (k : Nat) (v : α) :
    mapGet (mapInsert m k v) k = some v := by
  induction m with
  | nil => simp [mapInsert, mapGet]
  | cons p rest ih =>
    by_cases h : p.1 = k
    · simp [mapInsert, h, mapGet]
    · simp [mapInsert, h, mapGet, ih]

theorem mapGet_insert_ne {α : Type} (m : List (Nat × α)) (k j : Nat) (v : α)
    (h : j ≠ k) : mapGet (mapInsert m k v) j = mapGet m j := by
  have hkj : ¬ k = j := fun hh => h hh.symm
  induction m with
  | nil => simp [mapInsert, mapGet, hkj]
  | cons p rest ih =>
    by_cases hp : p.1 = k
    · have hpj : ¬ p.1 = j := by rw [hp]; exact hkj
      simp [mapInsert, hp, mapGet, hkj, hpj]
    · have hins : mapInsert (p :: rest) k v = p :: mapInsert rest k v := by
        simp [mapInsert, hp]
      rw [hins]
      by_cases hj : p.1 = j
      · simp [mapGet, hj]
      · simp [mapGet, hj, ih]

/-! ### C2: LimitedScore submission validity -/

theorem lscore_valid_iff (m : List (Nat × ℚ)) (size : Nat) :
    are_valid (CastVotes.Score m) VoteType.lscore size = true ↔
      abssum m < 10 + 1 / 10000 := by
  have : (100001 : ℚ) / 10000 = 10 + 1 / 10000 := by norm_num
  simp [are_valid, this]

/-- C2: a LimitedScore ballot is a valid submission exactly when the sum of
the absolute values of its stored scores is below 10.0 plus the 1e-4
tolerance; in particular scores {0 ↦ 6.0, 1 ↦ 5.0} (abs-sum 11) are
rejected and scores {0 ↦ 6.0, 1 ↦ 4.0} (abs-sum exactly 10.0) are
accepted. -/
theorem C2_lscore_submission_validity :
    (∀ (m : List (Nat × ℚ)) (size : Nat),
      are_valid (CastVotes.Score m) VoteType.lscore size = true ↔
        abssum m < 10 + 1 / 10000) ∧
    are_valid (CastVotes.Score [(0, 6), (1, 5)]) VoteType.lscore 2 = false ∧
    are_valid (CastVotes.Score [(0, 6), (1, 4)]) VoteType.lscore 2 = true := by
  refine ⟨lscore_valid_iff, ?_, ?_⟩
  · simp [are_valid, abssum]
    norm_num
  · simp [are_valid, abssum]
    norm_num

/-! ### C3: Borda submission validity -/

theorem borda_valid_iff (m : List (Nat × Nat)) (size : Nat) :
    are_valid (CastVotes.Rank m) VoteType.borda size = true ↔
      ∀ i < size, ∃ v, mapGet m i = some v ∧ 1 ≤ v := by
  simp only [are_valid, List.all_eq_true, List.mem_range]
  constructor
  · intro h i hi
    have hh := h i hi
    cases hv : mapGet m i with
    | none => rw [hv] at hh; cases hh
    | some v =>
      rw [hv] at hh
      exact ⟨v, rfl, by simpa using hh⟩
  · intro h i hi
    obtain ⟨v, hv, h1⟩ := h i hi
    rw [hv]
    simpa using h1

/-- C3: a Borda ballot over `size` choices is a valid submission exactly
when every choice index in `0..size` has an explicitly assigned rank at
least 1; concretely with N = 3, a ballot with no entries and a ballot
missing choice 2's rank both fail `record_submission`, while a ballot
ranking all three choices succeeds. -/
theorem C3_borda_submission_validity :
    (∀ (m : List (Nat × Nat)) (size : Nat),
      are_valid (CastVotes.Rank m) VoteType.borda size = true ↔
        ∀ i < size, ∃ v, mapGet m i = some v ∧ 1 ≤ v) ∧
    record_submission VoteType.borda 3 5 ⟨[(5, CastVotes.Rank [])], []⟩ =
      some (⟨[(5, CastVotes.Rank [])], []⟩, false, none) ∧
    record_submission VoteType.borda 3 5
        ⟨[(5, CastVotes.Rank [(0, 1), (1, 2)])], []⟩ =
      some (⟨[(5, CastVotes.Rank [(0, 1), (1, 2)])], []⟩, false, none) ∧
    record_submission VoteType.borda 3 5
        ⟨[(5, CastVotes.Rank [(0, 1), (1, 2), (2, 3)])], []⟩ =
      some (⟨[(5, CastVotes.Rank [(0, 1), (1, 2), (2, 3)])],
             [(5, CastVotes.Rank [(0, 1), (1, 2), (2, 3)])]⟩,
            true, some 1) := by
  exact ⟨borda_valid_iff, by decide, by decide, by decide⟩

/-! ### C4 / C10: toggle_selection -/

theorem toggle_of_mem (v : List Nat) (num : Nat) (h : num ∈ v) :
    toggle_selection v num = v.filter (fun x => x != num) := by
  simp [toggle_selection, h]

theorem toggle_of_notMem (v : List Nat) (num : Nat) (h : num ∉ v) :
    toggle_selection v num = v ++ [num] := by
  simp [toggle_selection, h]

theorem notMem_filter_ne (v : List Nat) (num : Nat) :
    num ∉ v.filter (fun x => x != num) := by
  simp [List.mem_filter]

theorem filter_ne_of_notMem (v : List Nat) (num : Nat) (h : num ∉ v) :
    v.filter (fun x => x != num) = v := by
  refine List.filter_eq_self.mpr ?_
  intro a ha
  simp only [bne_iff_ne, ne_eq, decide_eq_true_eq]
  intro hh
  exact h (hh ▸ ha)

theorem toggle_toggle_of_notMem (v : List Nat) (num : Nat) (h : num ∉ v) :
    toggle_selection (toggle_selection v num) num = v := by
  rw [toggle_of_notMem v num h,
    toggle_of_mem _ num (by simp), List.filter_append,
    filter_ne_of_notMem v num h]
  simp

theorem toggle_toggle_mem (v : List Nat) (num x : Nat) :
    x ∈ toggle_selection (toggle_selection v num) num ↔ x ∈ v := by
  by_cases h : num ∈ v
  · rw [toggle_of_mem v num h,
      toggle_of_notMem _ num (notMem_filter_ne v num)]
    simp only [List.mem_append, List.mem_filter, List.mem_singleton,
      bne_iff_ne, ne_eq, decide_eq_true_eq]
    constructor
    · rintro (⟨hx, _⟩ | rfl)
      · exact hx
      · exact h
    · intro hx
      by_cases hxn : x = num
      · exact Or.inr hxn
      · exact Or.inl ⟨hx, hxn⟩
  · rw [toggle_toggle_of_notMem v num h]

theorem cons_filter_ne_perm (num : Nat) :
    ∀ (v : List Nat), v.Nodup → num ∈ v →
      (num :: v.filter (fun x => x != num)).Perm v := by
  intro v
  induction v with
  | nil => intro _ h; cases h
  | cons a rest ih =>
    intro hnd hmem
    have hnd' := hnd
    rw [List.nodup_cons] at hnd'
    by_cases ha : num = a
    · subst ha
      rw [List.filter_cons_of_neg (by simp), filter_ne_of_notMem rest num hnd'.1]
    · have hrest : num ∈ rest := by
        cases List.mem_cons.mp hmem with
        | inl hh => exact absurd hh ha
        | inr hh => exact hh
      rw [List.filter_cons_of_pos (by simpa using fun hh => ha hh.symm)]
      exact List.Perm.trans (List.Perm.swap a num _)
        (List.Perm.cons a (ih hnd'.2 hrest))

theorem toggle_toggle_perm (v : List Nat) (num : Nat) (hnd : v.Nodup) :
    (toggle_selection (toggle_selection v num) num).Perm v := by
  by_cases h : num ∈ v
  · rw [toggle_of_mem v num h,
      toggle_of_notMem _ num (notMem_filter_ne v num)]
    exact (List.perm_append_singleton num _).trans (cons_filter_ne_perm num v hnd h)
  · rw [toggle_toggle_of_notMem v num h]

/-- C4: for an Approval (Select) ballot, one toggle adds the index when
absent and removes it when present, and a double toggle at the same index
restores the ballot's original state: literally when the index was absent,
and as the order-irrelevant set the spec declares a Selection to be (same
membership, and a permutation of the original for duplicate-free ballots)
when it was present. -/
theorem C4_toggle_double (v : List Nat) (num : Nat) :
    (toggle_selection v num =
      if num ∈ v then v.filter (fun x => x != num) else v ++ [num]) ∧
    (∀ x, x ∈ toggle_selection (toggle_selection v num) num ↔ x ∈ v) ∧
    (num ∉ v → toggle_selection (toggle_selection v num) num = v) ∧
    (v.Nodup → (toggle_selection (toggle_selection v num) num).Perm v) :=
  ⟨rfl, toggle_toggle_mem v num, toggle_toggle_of_notMem v num,
    toggle_toggle_perm v num⟩

theorem C4_toggle_double_w :
    toggle_selection (toggle_selection [5, 7] 6) 6 = [5, 7] ∧
    (toggle_selection (toggle_selection [5, 7] 5) 5).Perm [5, 7] :=
  ⟨(C4_toggle_double [5, 7] 6).2.2.1 (by decide),
   (C4_toggle_double [5, 7] 5).2.2.2 (by decide)⟩

theorem toggle_nodup (v : List Nat) (num : Nat) (h : v.Nodup) :
    (toggle_selection v num).Nodup := by
  by_cases hm : num ∈ v
  · rw [toggle_of_mem v num hm]
    exact h.filter _
  · rw [toggle_of_notMem v num hm]
    refine List.Nodup.append h (List.nodup_singleton num) ?_
    intro a ha hb
    rw [List.mem_singleton] at hb
    subst hb
    exact hm ha

theorem rankStep_ge_one (n r : Nat) : 1 ≤ rankStep n r := by
  unfold rankStep
  split <;> omega

theorem rankStep_le (n r : Nat) (h : 1 ≤ n) : rankStep n r ≤ n := by
  unfold rankStep
  split <;> omega

theorem incr_get (m : List (Nat × Nat)) (num nvals : Nat) :
    mapGet (increment_rank m num nvals) num =
      some (rankStep nvals ((mapGet m num).getD nvals)) := by
  simp [increment_rank, mapGet_insert_self]

/-- C10: ballot mutations preserve well-formedness: toggling a Select
ballot preserves the no-duplicates invariant, the rank the increment path
stores at the touched index lies in `1..=nvals` (for a session with at
least one choice), and no other index of the rank map changes. -/
theorem C10_mutation_invariants :
    (∀ (v : List Nat) (num : Nat), v.Nodup → (toggle_selection v num).Nodup) ∧
    (∀ (m : List (Nat × Nat)) (num nvals r : Nat), 1 ≤ nvals →
      mapGet (increment_rank m num nvals) num = some r →
        1 ≤ r ∧ r ≤ nvals) ∧
    (∀ (m : List (Nat × Nat)) (num nvals j : Nat), j ≠ num →
      mapGet (increment_rank m num nvals) j = mapGet m j) := by
  refine ⟨toggle_nodup, ?_, ?_⟩
  · intro m num nvals r hn hr
    rw [incr_get] at hr
    cases hr
    exact ⟨rankStep_ge_one _ _, rankStep_le _ _ hn⟩
  · intro m num nvals j hj
    exact mapGet_insert_ne _ _ _ _ hj

theorem C10_mutation_invariants_w :
    (toggle_selection [2, 0] 1).Nodup ∧
    (1 ≤ 3 ∧ 3 ≤ 3) ∧
    mapGet (increment_rank [(0, 2)] 0 3) 1 = mapGet [(0, 2)] 1 :=
  ⟨C10_mutation_invariants.1 [2, 0] 1 (by decide),
   C10_mutation_invariants.2.1 [(0, 2)] 0 3 3 (by decide) (by decide),
   C10_mutation_invariants.2.2 [(0, 2)] 0 3 1 (by decide)⟩

/-! ### C5: increment_rank is cyclic -/

theorem add_one_mod (a n : Nat) (h : 1 ≤ n) :
    (a % n + 1) % n = (a + 1) % n := by
  rcases Nat.lt_or_ge 1 n with h1 | h1
  · conv_rhs => rw [Nat.add_mod]
    rw [Nat.mod_eq_of_lt h1]
  · have hn1 : n = 1 := by omega
    subst hn1
    simp [Nat.mod_one]

theorem rankStep_iterate (n : Nat) (hn : 1 ≤ n) :
    ∀ (k x : Nat), x < n → (rankStep n)^[k] (x + 1) = (x + k) % n + 1 := by
  intro k
  induction k with
  | zero =>
    intro x hx
    simp [Nat.mod_eq_of_lt hx]
  | succ k ih =>
    intro x hx
    rw [Function.iterate_succ_apply', ih x hx,
      show x + (k + 1) = (x + k) + 1 from rfl,
      ← add_one_mod (x + k) n hn]
    have hylt : (x + k) % n < n := Nat.mod_lt _ hn
    unfold rankStep
    rcases Nat.lt_or_ge ((x + k) % n + 1) n with h1 | h1
    · rw [if_neg (by omega), Nat.mod_eq_of_lt h1]
    · have hyn : (x + k) % n + 1 = n := by omega
      rw [if_pos (by omega), hyn, Nat.mod_self]

theorem rankStep_iterate_fix (n r : Nat) (h1 : 1 ≤ r) (h2 : r ≤ n) :
    (rankStep n)^[n] r = r := by
  have hn : 1 ≤ n := le_trans h1 h2
  have hx : r - 1 < n := by omega
  have hr : r - 1 + 1 = r := by omega
  have := rankStep_iterate n hn n (r - 1) hx
  rw [hr, Nat.add_mod_right, Nat.mod_eq_of_lt hx, hr] at this
  exact this

theorem incr_iterate_get (m : List (Nat × Nat)) (num nvals : Nat) :
    ∀ k, mapGet ((fun mm => increment_rank mm num nvals)^[k + 1] m) num =
      some ((rankStep nvals)^[k]
        (rankStep nvals ((mapGet m num).getD nvals))) := by
  intro k
  induction k with
  | zero => simp [incr_get]
  | succ k ih =>
    rw [show k + 1 + 1 = (k + 1) + 1 from rfl, Function.iterate_succ_apply']
    rw [incr_get, ih]
    simp [Function.iterate_succ_apply']

/-- C5: for a Borda (Rank) ballot, increment_rank stores (current rank,
defaulting to `nvals` when the index has no entry) + 1, wrapping to 1 when
the result exceeds `nvals`; consequently applying it `nvals + 1` times to
the same index yields the same stored rank as applying it once. -/
theorem C5_increment_rank_cyclic :
    (∀ (m : List (Nat × Nat)) (num nvals : Nat),
      mapGet (increment_rank m num nvals) num =
        some (if (mapGet m num).getD nvals + 1 > nvals then 1
              else (mapGet m num).getD nvals + 1)) ∧
    (∀ (m : List (Nat × Nat)) (num nvals : Nat),
      mapGet ((fun mm => increment_rank mm num nvals)^[nvals + 1] m) num =
        mapGet ((fun mm => increment_rank mm num nvals)^[1] m) num) := by
  constructor
  · intro m num nvals
    rw [incr_get]
    rfl
  · intro m num nvals
    rcases Nat.eq_zero_or_pos nvals with h0 | hpos
    · subst h0
      rfl
    · rw [incr_iterate_get m num nvals nvals, incr_iterate_get m num nvals 0,
        Function.iterate_zero_apply,
        rankStep_iterate_fix nvals _ (rankStep_ge_one _ _)
          (rankStep_le _ _ hpos)]

/-! ### C6: finalize (get_ballot) -/

theorem mapGet_eq_none_of_not_contains {α : Type} (m : List (Nat × α))
    (k : Nat) (h : mapContains m k = false) : mapGet m k = none := by
  unfold mapContains at h
  cases hg : mapGet m k with
  | none => rfl
  | some v => rw [hg] at h; cases h

theorem fillMap_succ {α : Type} (m : List (Nat × α)) (n : Nat) (d : α) :
    fillMap m (n + 1) d =
      (if mapContains (fillMap m n d) n then fillMap m n d
       else mapInsert (fillMap m n d) n d) := by
  unfold fillMap
  rw [List.range_succ, List.foldl_append]
  simp

theorem mapGet_fill_step_self {α : Type} (d : α) (acc : List (Nat × α))
    (i : Nat) :
    mapGet (if mapContains acc i then acc else mapInsert acc i d) i =
      some ((mapGet acc i).getD d) := by
  by_cases hc : mapContains acc i
  · rw [if_pos hc]
    unfold mapContains at hc
    cases hg : mapGet acc i with
    | none => rw [hg] at hc; cases hc
    | some v => simp
  · rw [if_neg hc, mapGet_insert_self,
      mapGet_eq_none_of_not_contains acc i (by simpa using hc)]
    rfl

theorem mapGet_fill_step_ne {α : Type} (d : α) (acc : List (Nat × α))
    (i j : Nat) (h : j ≠ i) :
    mapGet (if mapContains acc i then acc else mapInsert acc i d) j =
      mapGet acc j := by
  by_cases hc : mapContains acc i
  · rw [if_pos hc]
  · rw [if_neg hc, mapGet_insert_ne _ _ _ _ h]

theorem mapGet_fillMap_untouched {α : Type} (d : α) :
    ∀ (size : Nat) (m : List (Nat × α)) (j : Nat), size ≤ j →
      mapGet (fillMap m size d) j = mapGet m j := by
  intro size
  induction size with
  | zero =>
    intro m j _
    unfold fillMap
    simp
  | succ n ih =>
    intro m j hj
    rw [fillMap_succ, mapGet_fill_step_ne d _ n j (by omega), ih m j (by omega)]

theorem mapGet_fillMap {α : Type} (d : α) :
    ∀ (size : Nat) (m : List (Nat × α)) (i : Nat), i < size →
      mapGet (fillMap m size d) i = some ((mapGet m i).getD d) := by
  intro size
  induction size with
  | zero => intro m i h; omega
  | succ n ih =>
    intro m i h
    rw [fillMap_succ]
    rcases Nat.lt_or_ge i n with hin | hin
    · rw [mapGet_fill_step_ne d _ n i (by omega)]
      exact ih m i hin
    · have hi : i = n := by omega
      subst hi
      rw [mapGet_fill_step_self, mapGet_fillMap_untouched d i m i (le_refl i)]

theorem fillMap_of_all_contains {α : Type} (d : α) :
    ∀ (size : Nat) (m : List (Nat × α)),
      (∀ i, i < size → mapContains m i = true) → fillMap m size d = m := by
  intro size
  induction size with
  | zero =>
    intro m _
    unfold fillMap
    simp
  | succ n ih =>
    intro m hall
    rw [fillMap_succ, ih m (fun i hi => hall i (by omega)),
      if_pos (hall n (by omega))]

theorem contains_fillMap {α : Type} (d : α) (size : Nat)
    (m : List (Nat × α)) (i : Nat) (h : i < size) :
    mapContains (fillMap m size d) i = true := by
  unfold mapContains
  rw [mapGet_fillMap d size m i h]
  rfl

theorem fillMap_idem {α : Type} (d : α) (size : Nat) (m : List (Nat × α)) :
    fillMap (fillMap m size d) size d = fillMap m size d :=
  fillMap_of_all_contains d size _ (fun i hi => contains_fillMap d size m i hi)

theorem get_ballot_idem (cv : CastVotes) (size : Nat) :
    get_ballot (get_ballot cv size) size = get_ballot cv size := by
  cases cv <;> simp [get_ballot, fillMap_idem]

/-- C6: finalize (`get_ballot`) fills every unset choice index in
`0..size` with the method default (0.0 for score maps, `size - 1` for rank
maps), leaves set indices and Select ballots unchanged, and is idempotent:
finalizing an already-finalized ballot yields an identical ballot. -/
theorem C6_finalize_idempotent :
    (∀ (cv : CastVotes) (size : Nat),
      get_ballot (get_ballot cv size) size = get_ballot cv size) ∧
    (∀ (v : List Nat) (size : Nat),
      get_ballot (CastVotes.Select v) size = CastVotes.Select v) ∧
    (∀ (m : List (Nat × ℚ)) (size : Nat),
      get_ballot (CastVotes.Score m) size =
        CastVotes.Score (fillMap m size 0)) ∧
    (∀ (m : List (Nat × Nat)) (size : Nat),
      get_ballot (CastVotes.Rank m) size =
        CastVotes.Rank (fillMap m size (size - 1))) ∧
    (∀ (m : List (Nat × ℚ)) (size i : Nat), i < size →
      mapGet (fillMap m size (0 : ℚ)) i = some ((mapGet m i).getD 0)) ∧
    (∀ (m : List (Nat × Nat)) (size i : Nat), i < size →
      mapGet (fillMap m size (size - 1)) i =
        some ((mapGet m i).getD (size - 1))) :=
  ⟨get_ballot_idem, fun _ _ => rfl, fun _ _ => rfl, fun _ _ => rfl,
   fun m size i hi => mapGet_fillMap 0 size m i hi,
   fun m size i hi => mapGet_fillMap (size - 1) size m i hi⟩

theorem C6_finalize_idempotent_w :
    mapGet (fillMap [(1, (7 : ℚ))] 3 (0 : ℚ)) 0 =
      some ((mapGet [(1, (7 : ℚ))] 0).getD 0) ∧
    mapGet (fillMap ([] : List (Nat × Nat)) 3 2) 2 =
      some ((mapGet ([] : List (Nat × Nat)) 2).getD 2) :=
  ⟨C6_finalize_idempotent.2.2.2.2.1 [(1, (7 : ℚ))] 3 0 (by decide),
   C6_finalize_idempotent.2.2.2.2.2 [] 3 2 (by decide)⟩

/-! ### C7: pagination -/

/-- C7: with page size 4 and `n ≥ 1` choices, `num_pages` equals
`ceil(n / 4)`; LEFT navigation moves to `p - 1` wrapping to
`num_pages - 1` at 0, RIGHT moves to `p + 1` wrapping to 0 when it
reaches `num_pages`, and from any in-range page every navigation lands on
an in-range page. -/
theorem C7_pagination (n p : Nat) (hn : 1 ≤ n) (hp : p < num_pages n) :
    num_pages n = (n + PERPAGE - 1) / PERPAGE ∧
    nav_page true p (num_pages n) =
      (if p = 0 then num_pages n - 1 else p - 1) ∧
    nav_page false p (num_pages n) =
      (if p + 1 ≥ num_pages n then 0 else p + 1) ∧
    (∀ d, nav_page d p (num_pages n) < num_pages n) := by
  have h1 : 1 ≤ num_pages n := by
    show 1 ≤ (n - 1) / 4 + 1
    omega
  refine ⟨?_, by simp [nav_page], by simp [nav_page], ?_⟩
  · show (n - 1) / 4 + 1 = (n + 4 - 1) / 4
    omega
  · intro d
    cases d <;> simp [nav_page] <;> split <;> omega

theorem C7_pagination_w :
    num_pages 5 = (5 + PERPAGE - 1) / PERPAGE ∧
    (∀ d, nav_page d 1 (num_pages 5) < num_pages 5) :=
  ⟨(C7_pagination 5 1 (by decide) (by decide)).1,
   (C7_pagination 5 1 (by decide) (by decide)).2.2.2⟩

/-! ### C9: ValueEntered handling -/

/-- C9: a ValueEntered action parses the raw text (modelled as the parse
result `Option ℚ`); on parse failure or a failed per-method value check
(outside [-10, 10] for Score/LimitedScore; non-integer, non-positive, or
greater than the choice count for Borda ranks; never for Approval), the
value 0.0 is stored at the choice index with the inline error flag set,
otherwise the parsed value itself is stored with no error. -/
theorem C9_value_entered_spec :
    (∀ (nvals : Nat) (s : ℚ),
      is_bad_value VoteType.approval s nvals = false) ∧
    (∀ (nvals : Nat) (s : ℚ),
      is_bad_value VoteType.score s nvals = true ↔ s < -10 ∨ 10 < s) ∧
    (∀ (nvals : Nat) (s : ℚ),
      is_bad_value VoteType.lscore s nvals = true ↔ s < -10 ∨ 10 < s) ∧
    (∀ (nvals : Nat) (s : ℚ),
      is_bad_value VoteType.borda s nvals = true ↔
        s.den ≠ 1 ∨ s ≤ 0 ∨ (nvals : ℚ) < s) ∧
    (∀ (vt : VoteType) (nvals num : Nat) (m : List (Nat × ℚ)),
      value_entered vt nvals num none m = (mapInsert m num 0, true)) ∧
    (∀ (vt : VoteType) (nvals num : Nat) (m : List (Nat × ℚ)) (s : ℚ),
      is_bad_value vt s nvals = true →
        value_entered vt nvals num (some s) m = (mapInsert m num 0, true)) ∧
    (∀ (vt : VoteType) (nvals num : Nat) (m : List (Nat × ℚ)) (s : ℚ),
      is_bad_value vt s nvals = false →
        value_entered vt nvals num (some s) m = (mapInsert m num s, false)) ∧
    (∀ (m : List (Nat × ℚ)) (num : Nat) (s : ℚ),
      mapGet (mapInsert m num s) num = some s) := by
  refine ⟨fun _ _ => rfl, ?_, ?_, ?_, fun _ _ _ _ => rfl, ?_, ?_, ?_⟩
  · intro nvals s
    simp [is_bad_value]
  · intro nvals s
    simp [is_bad_value]
  · intro nvals s
    simp [is_bad_value]
  · intro vt nvals num m s hb
    simp [value_entered, hb]
  · intro vt nvals num m s hb
    simp [value_entered, hb]
  · intro m num s
    exact mapGet_insert_self m num s

theorem C9_value_entered_spec_w :
    value_entered VoteType.score 2 0 (some 11) [] =
      (mapInsert [] 0 0, true) ∧
    value_entered VoteType.score 2 0 (some 3) [] =
      (mapInsert [] 0 3, false) :=
  ⟨C9_value_entered_spec.2.2.2.2.2.1 VoteType.score 2 0 [] 11 (by decide),
   C9_value_entered_spec.2.2.2.2.2.2.1 VoteType.score 2 0 [] 3 (by decide)⟩

/-! ### C1: record_submission -/

/-- C1: record_submission first validates the participant's current
ballot; on failure the whole state (in particular the submitted mapping)
is returned unchanged with no count report; on success the finalized
(default-filled) ballot is stored into `submitted` under the
participant's id and any reported voter count equals the number of
entries in the updated `submitted` mapping. -/
theorem C1_record_submission_spec (vt : VoteType) (nvals uid : Nat)
    (st : VoteSt) (votes : CastVotes)
    (h : mapGet st.uservotes uid = some votes) :
    (are_valid votes vt nvals = false →
      record_submission vt nvals uid st = some (st, false, none)) ∧
    (are_valid votes vt nvals = true →
      ∃ st' cnt,
        record_submission vt nvals uid st = some (st', true, cnt) ∧
        st'.uservotes = st.uservotes ∧
        mapGet st'.submitted uid = some (get_ballot votes nvals) ∧
        ∀ c, cnt = some c → c = st'.submitted.length) := by
  constructor
  · intro hv
    simp [record_submission, h, hv]
  · intro hv
    refine ⟨{ st with
        submitted := mapInsert st.submitted uid (get_ballot votes nvals) },
      if mapContains st.submitted uid then none
      else some (mapInsert st.submitted uid (get_ballot votes nvals)).length,
      ?_, rfl, ?_, ?_⟩
    · simp [record_submission, h, hv]
    · exact mapGet_insert_self _ _ _
    · intro c hc
      by_cases hct : mapContains st.submitted uid
      · rw [if_pos hct] at hc
        cases hc
      · rw [if_neg hct] at hc
        cases hc
        rfl

theorem C1_record_submission_spec_w :
    ∃ st' cnt,
      record_submission VoteType.approval 2 7
          ⟨[(7, CastVotes.Select [0])], []⟩ = some (st', true, cnt) ∧
      st'.uservotes = VoteSt.uservotes ⟨[(7, CastVotes.Select [0])], []⟩ ∧
      mapGet st'.submitted 7 = some (get_ballot (CastVotes.Select [0]) 2) ∧
      ∀ c, cnt = some c → c = st'.submitted.length :=
  (C1_record_submission_spec VoteType.approval 2 7
      ⟨[(7, CastVotes.Select [0])], []⟩ (CastVotes.Select [0])
      (by decide)).2 (by decide)

/-! ### C8: vote-once resubmission short circuit -/

/-- C8: when resubmission is disallowed (`vote_once`), a SubmitRequested
action from a uid already present in `submitted` returns the session state
completely unchanged (same `submitted` mapping and same participant
ballots), issues no voter-count update, runs no validation, and shows
tally results computed freshly from the current `submitted` mapping. -/
theorem C8_vote_once_short_circuit (vt : VoteType) (nvals uid : Nat)
    (st : VoteSt) (h : mapContains st.submitted uid = true) :
    submit_action true vt nvals uid st =
      some (st, { validated := none, count_update := none,
                  results_from := some st.submitted }) := by
  simp [submit_action, h]

theorem C8_vote_once_short_circuit_w :
    submit_action true VoteType.approval 2 7
        ⟨[(7, CastVotes.Select [0])], [(7, CastVotes.Select [0, 1])]⟩ =
      some (⟨[(7, CastVotes.Select [0])], [(7, CastVotes.Select [0, 1])]⟩,
            { validated := none, count_update := none,
              results_from := some [(7, CastVotes.Select [0, 1])] }) :=
  C8_vote_once_short_circuit VoteType.approval 2 7
    ⟨[(7, CastVotes.Select [0])], [(7, CastVotes.Select [0, 1])]⟩ (by decide)

end GameVote
